import Mathlib

/-!
Shallow embedding of the core data pipeline of `streamlit_app.py`:
the identifier builder `create_cvg_identifier`, the series ranker
`select_best_cvgs` and the resample-merge engine `process_data`.

Modelling conventions:
* text values (pandas object/str cells) are lists of characters;
* pandas timestamps are civil dates (year, month, day) together with a
  day-number conversion (days since 1970-01-01, which was a Thursday);
* numeric cells are rationals (pandas float64 arithmetic is modelled
  exactly; every float the claims touch is a small integer or a mean of
  such, so ordering and equality agree with the float semantics);
* missing values (NaN / NaT / pd.NA) are `Option.none`;
* a dataframe is a list of row structures, in row order.
-/

/-- Text cell: a string modelled as its list of characters. -/
abbrev Str := List Char

/-! ### Calendar

pandas timestamps are civil dates.  Day numbers count days since
1970-01-01; month indexes count months since January 1970. -/

/-- Gregorian leap-year test. -/
def isLeap (y : Int) : Bool := y % 4 = 0 && (y % 100 != 0 || y % 400 = 0)

/-- Length of month `m` of year `y` in days. -/
def daysInMonth (y m : Int) : Int :=
  if m = 2 then (if isLeap y then 29 else 28)
  else if m = 4 ∨ m = 6 ∨ m = 9 ∨ m = 11 then 30 else 31

/-- Length of the month with month index `k` (months since January 1970). -/
def monthLen (k : Int) : Int := daysInMonth (1970 + k.ediv 12) (k.emod 12 + 1)

/-- Day number of the first day of month index `n` (for months at or after
January 1970). -/
def monthStartAux : Nat → Int
  | 0 => 0
  | n + 1 => monthStartAux n + monthLen n

/-- Day number of the first day of month index `-n` (months before 1970). -/
def monthStartNeg : Nat → Int
  | 0 => 0
  | n + 1 => monthStartNeg n - monthLen (-(n + 1 : Int))

/-- Day number of the first day of the month with month index `k`. -/
def monthStart (k : Int) : Int :=
  if 0 ≤ k then monthStartAux k.toNat else monthStartNeg (-k).toNat

/-- A civil date, the embedding of a pandas `Timestamp`. -/
structure Date where
  year : Int
  month : Int
  day : Int
deriving DecidableEq

/-- Calendar validity of a (year, month, day) triple. -/
def validDate (dt : Date) : Bool :=
  1 ≤ dt.month && dt.month ≤ 12 && 1 ≤ dt.day && dt.day ≤ daysInMonth dt.year dt.month

/-- Month index (months since January 1970) of a date. -/
def mIdx (dt : Date) : Int := 12 * (dt.year - 1970) + (dt.month - 1)

/-- Day number (days since 1970-01-01) of a date. -/
def toDays (dt : Date) : Int := monthStart (mIdx dt) + (dt.day - 1)

/-- Day number of the Sunday ending the `W-SUN` weekly window containing day
`d`.  Day 0 (1970-01-01) was a Thursday, so Sundays are the days congruent
to 3 modulo 7. -/
def weekEnd (d : Int) : Int := d + (3 - d) % 7

theorem monthLen_pos (k : Int) : 0 < monthLen k := by
  unfold monthLen daysInMonth
  split
  · split <;> norm_num
  · split <;> norm_num

theorem monthStart_succ (k : Int) : monthStart (k + 1) = monthStart k + monthLen k := by
  unfold monthStart
  rcases lt_trichotomy k 0 with hk | hk | hk
  · rcases eq_or_lt_of_le (Int.add_one_le_iff.mpr hk) with hk1 | hk1
    · rw [if_pos (le_of_eq hk1.symm), if_neg (not_le.mpr hk)]
      have hkk : k = -1 := by omega
      subst hkk
      show monthStartAux 0 = monthStartNeg 1 + monthLen (-1)
      show (0 : Int) = 0 - monthLen (-(0 + 1 : Int)) + monthLen (-1)
      norm_num
    · rw [if_neg (by omega), if_neg (not_le.mpr hk)]
      have h1 : (-(k + 1)).toNat + 1 = (-k).toNat := by omega
      have h2 : monthStartNeg ((-(k + 1)).toNat + 1)
          = monthStartNeg (-(k + 1)).toNat - monthLen (-(((-(k + 1)).toNat : Int) + 1)) := rfl
      have h3 : -(((-(k + 1)).toNat : Int) + 1) = k := by omega
      rw [← h1, h2, h3]
      ring
  · subst hk
    show monthStartAux 1 = monthStartAux 0 + monthLen 0
    rfl
  · rw [if_pos (by omega), if_pos (le_of_lt hk)]
    have h1 : (k + 1).toNat = k.toNat + 1 := by omega
    rw [h1]
    show monthStartAux k.toNat + monthLen k.toNat = monthStartAux k.toNat + monthLen k
    congr 1
    rw [Int.toNat_of_nonneg (le_of_lt hk)]

theorem monthStart_lt_succ (k : Int) : monthStart k < monthStart (k + 1) := by
  rw [monthStart_succ]
  have := monthLen_pos k
  omega

/-! ### Identifier Builder

`create_cvg_identifier` (source lines 7–9) builds the composite CVG key
by joining the four text fields with the underscore delimiter, as the
f-string does. -/

/-- A raw commodity record as the identifier builder sees it. -/
structure RawRow where
  Commodity : Str
  Variety : Str
  Grade : Str
  Market : Str
deriving DecidableEq

/-- Embedding of `create_cvg_identifier`. -/
def create_cvg_identifier (row : RawRow) : Str :=
  row.Commodity ++ ('_' :: (row.Variety ++ ('_' :: (row.Grade ++ ('_' :: row.Market)))))

/-- Splitting a string on the underscore delimiter (the inverse operation
the spec names for the key). -/
def splitOnUnderscore : Str → List Str
  | [] => [[]]
  | c :: rest =>
    if c = '_' then [] :: splitOnUnderscore rest
    else
      match splitOnUnderscore rest with
      | [] => [[c]]
      | s :: ss => (c :: s) :: ss

theorem splitOnUnderscore_no_sep {a : Str} (h : '_' ∉ a) :
    splitOnUnderscore a = [a] := by
  induction a with
  | nil => rfl
  | cons c rest ih =>
    have hc : ¬ c = '_' := fun hc => h (hc ▸ List.mem_cons_self c rest)
    have hrest : '_' ∉ rest := fun hr => h (List.mem_cons_of_mem c hr)
    unfold splitOnUnderscore
    rw [if_neg hc, ih hrest]

theorem splitOnUnderscore_append {a rest : Str} (h : '_' ∉ a) :
    splitOnUnderscore (a ++ '_' :: rest) = a :: splitOnUnderscore rest := by
  induction a with
  | nil => simp [splitOnUnderscore]
  | cons c tl ih =>
    have hc : ¬ c = '_' := fun hc => h (hc ▸ List.mem_cons_self c tl)
    have htl : '_' ∉ tl := fun hr => h (List.mem_cons_of_mem c hr)
    rw [List.cons_append]
    show (if c = '_' then [] :: splitOnUnderscore (tl ++ '_' :: rest)
      else
        match splitOnUnderscore (tl ++ '_' :: rest) with
        | [] => [[c]]
        | s :: ss => (c :: s) :: ss) = (c :: tl) :: splitOnUnderscore rest
    rw [if_neg hc, ih htl]

/-! ### String order

pandas groupby with the default sort=True lists group keys in ascending
lexicographic string order; `strLe` is that order on text cells. -/

/-- Lexicographic order on text cells. -/
def strLe : Str → Str → Bool
  | [], _ => true
  | _ :: _, [] => false
  | a :: as, b :: bs => if a < b then true else if a = b then strLe as bs else false

/-- The propositional form of `strLe`, used as the sort relation for group
keys. -/
def strLeR (a b : Str) : Prop := strLe a b = true

instance : DecidableRel strLeR := fun a b => inferInstanceAs (Decidable (strLe a b = true))

theorem strLe_total (a b : Str) : strLe a b = true ∨ strLe b a = true := by
  induction a generalizing b with
  | nil => left; rfl
  | cons x as ih =>
    cases b with
    | nil => right; rfl
    | cons y bs =>
      rcases lt_trichotomy x y with h | h | h
      · left; simp [strLe, h]
      · subst h
        rcases ih bs with h2 | h2
        · left; simp [strLe, h2]
        · right; simp [strLe, h2]
      · right; simp [strLe, h]

theorem strLe_trans {a b c : Str} (h1 : strLe a b = true) (h2 : strLe b c = true) :
    strLe a c = true := by
  induction a generalizing b c with
  | nil => rfl
  | cons x as ih =>
    cases b with
    | nil => simp [strLe] at h1
    | cons y bs =>
      cases c with
      | nil => simp [strLe] at h2
      | cons z cs =>
        simp only [strLe] at h1 h2 ⊢
        rcases lt_trichotomy x y with hxy | hxy | hxy
        · rcases lt_trichotomy y z with hyz | hyz | hyz
          · simp [lt_trans hxy hyz]
          · subst hyz; simp [hxy]
          · rw [if_neg (not_lt_of_gt hyz), if_neg (fun h : y = z => absurd (h ▸ hyz) (lt_irrefl z))] at h2
            exact absurd h2 (by simp)
        · subst hxy
          rw [if_neg (lt_irrefl x), if_pos rfl] at h1
          rcases lt_trichotomy x z with hyz | hyz | hyz
          · simp [hyz]
          · subst hyz
            rw [if_neg (lt_irrefl x), if_pos rfl] at h2 ⊢
            exact ih h1 h2
          · rw [if_neg (not_lt_of_gt hyz), if_neg (fun h : x = z => absurd (h ▸ hyz) (lt_irrefl z))] at h2
            exact absurd h2 (by simp)
        · rw [if_neg (not_lt_of_gt hxy), if_neg (fun h : x = y => absurd (h ▸ hxy) (lt_irrefl y))] at h1
          exact absurd h1 (by simp)

theorem strLe_antisymm {a b : Str} (h1 : strLe a b = true) (h2 : strLe b a = true) : a = b := by
  induction a generalizing b with
  | nil =>
    cases b with
    | nil => rfl
    | cons y bs => simp [strLe] at h2
  | cons x as ih =>
    cases b with
    | nil => simp [strLe] at h1
    | cons y bs =>
      simp only [strLe] at h1 h2
      rcases lt_trichotomy x y with hxy | hxy | hxy
      · rw [if_neg (not_lt_of_gt hxy), if_neg (fun h : y = x => absurd (h ▸ hxy) (lt_irrefl x))] at h2
        exact absurd h2 (by simp)
      · subst hxy
        rw [if_neg (lt_irrefl x), if_pos rfl] at h1 h2
        rw [ih h1 h2]
      · rw [if_neg (not_lt_of_gt hxy), if_neg (fun h : x = y => absurd (h ▸ hxy) (lt_irrefl y))] at h1
        exact absurd h1 (by simp)

instance : IsTotal Str strLeR := ⟨strLe_total⟩

instance : IsTrans Str strLeR := ⟨fun _ _ _ => strLe_trans⟩

instance : IsAntisymm Str strLeR := ⟨fun _ _ => strLe_antisymm⟩

/-! ### Series Ranker

Embedding of `select_best_cvgs` (source lines 21–50). -/

/-- A commodity record as `select_best_cvgs` and `process_data` see it: the
CVG key has already been attached at load time.  The Date cell holds the
result the two-format fallback parse will produce for the raw text: `some d`
when the text denotes the civil date `d` under ISO or day-first parsing,
`none` when both formats reject it.  (String-level lexing is abstracted;
only the parse outcome is observable downstream.)  The Variety, Grade and
Market columns only feed the precomputed CVG key and are not repeated
here. -/
structure CRow where
  Commodity : Str
  CVG : Str
  Date : Option Date
  Modal : Option ℚ
  Arrivals : Option ℚ
deriving DecidableEq

/-- Embedding of `parse_mixed_dates` (lines 12–19): try ISO, then day-first,
else NaT.  On the abstracted representation of the raw text this is the
identity, with NaT as `none`. -/
def parse_mixed_dates (d : Option Date) : Option Date := d

/-- One row of the per-CVG aggregation table `cvg_stats` (lines 29–39). -/
structure CvgStats where
  CVG : Str
  start_date : Option Int
  end_date : Option Int
  total_count : Nat
  non_null_count : Nat
  span : Option Int
  years_span : Option ℚ
  records_per_year : Option (WithTop ℚ)
deriving DecidableEq

/-- Minimum of a list of day numbers; `none` on the empty list (pandas min
over an all-missing column is NaT). -/
def optMin : List Int → Option Int
  | [] => none
  | a :: l => some (match optMin l with | none => a | some m => min a m)

/-- Maximum of a list of day numbers; `none` on the empty list. -/
def optMax : List Int → Option Int
  | [] => none
  | a :: l => some (match optMax l with | none => a | some m => max a m)

/-- The parsed dates of a group as day numbers: pandas min/max/count on a
datetime column skip NaT entries. -/
def groupDays (g : List CRow) : List Int := g.filterMap (fun r => r.Date.map toDays)

/-- The aggregation of lines 29–39 for one CVG group: min, max and count of
the Date column, count of the Modal column (pandas count skips missing
values), then the derived span, years_span and records_per_year columns.
365.25 is the rational 1461/4; a zero span makes records_per_year the float
infinity (`⊤`) when the count is positive and NaN (`none`) when it is zero,
mirroring float division by zero. -/
def cvgStatsOf (g : List CRow) (k : Str) : CvgStats :=
  let start_date := optMin (groupDays g)
  let end_date := optMax (groupDays g)
  let total_count := (groupDays g).length
  let non_null_count := (g.filterMap (fun r => r.Modal)).length
  let span : Option Int :=
    match end_date, start_date with
    | some e, some s => some (e - s)
    | _, _ => none
  let years_span : Option ℚ := span.map (fun s => (s : ℚ) / (1461 / 4 : ℚ))
  let records_per_year : Option (WithTop ℚ) :=
    match years_span with
    | none => none
    | some ys =>
      if ys = 0 then (if non_null_count = 0 then none else some ⊤)
      else some (((non_null_count : ℚ) / ys : ℚ))
  { CVG := k, start_date := start_date, end_date := end_date, total_count := total_count,
    non_null_count := non_null_count, span := span, years_span := years_span,
    records_per_year := records_per_year }

/-- First-appearance deduplication, the order `pandas.unique` returns values
in (line 24). -/
def uniqueFirst : List Str → List Str
  | [] => []
  | a :: l => a :: (uniqueFirst l).filter (fun b => decide (b ≠ a))

/-- Group keys of `groupby('CVG')` with the default sort=True: the distinct
CVG values in ascending lexicographic order. -/
def sortedKeys (cdf : List CRow) : List Str :=
  List.insertionSort strLeR (uniqueFirst (cdf.map (fun r => r.CVG)))

/-- The rows of one CVG group. -/
def cvgGroup (cdf : List CRow) (k : Str) : List CRow :=
  cdf.filter (fun r => decide (r.CVG = k))

/-- The `cvg_stats` table of lines 29–39 for one commodity's rows: one
aggregated row per CVG group, in groupby key order. -/
def cvg_stats (cdf : List CRow) : List CvgStats :=
  (sortedKeys cdf).map (fun k => cvgStatsOf (cvgGroup cdf k) k)

/-- The eligibility filter of lines 41–45: end_date within five years of now
and at least 500 non-missing Modal values.  A NaT end_date fails the
comparison, as in pandas. -/
def eligible (fya : Int) (s : CvgStats) : Bool :=
  (match s.end_date with
   | some e => decide (fya ≤ e)
   | none => false) && decide (500 ≤ s.non_null_count)

/-- Sort value of the records_per_year column: missing (NaN) sorts after
every number in the descending sort (na_position='last'), so it maps to
`⊥`; infinities from zero spans are `⊤` of the inner `WithTop`. -/
def rpyVal (x : Option (WithTop ℚ)) : WithBot (WithTop ℚ) :=
  match x with
  | none => ⊥
  | some v => some v

/-- The sort relation of line 47: descending by non_null_count, then
descending by records_per_year.  `rankR a b` says `a` may come before `b`.
pandas sorts several columns with a stable lexicographic sort
(np.lexsort), embedded below as a stable insertion sort. -/
def rankR (a b : CvgStats) : Prop :=
  b.non_null_count < a.non_null_count ∨
    (a.non_null_count = b.non_null_count ∧ rpyVal b.records_per_year ≤ rpyVal a.records_per_year)

instance : DecidableRel rankR := fun a b =>
  inferInstanceAs (Decidable (b.non_null_count < a.non_null_count ∨
    (a.non_null_count = b.non_null_count ∧ rpyVal b.records_per_year ≤ rpyVal a.records_per_year)))

instance : IsTotal CvgStats rankR :=
  ⟨fun a b => by
    unfold rankR
    rcases lt_trichotomy a.non_null_count b.non_null_count with h | h | h
    · exact Or.inr (Or.inl h)
    · rcases le_total (rpyVal b.records_per_year) (rpyVal a.records_per_year) with h2 | h2
      · exact Or.inl (Or.inr ⟨h, h2⟩)
      · exact Or.inr (Or.inr ⟨h.symm, h2⟩)
    · exact Or.inl (Or.inl h)⟩

instance : IsTrans CvgStats rankR :=
  ⟨fun a b c h1 h2 => by
    unfold rankR at *
    rcases h1 with h1 | ⟨h1e, h1r⟩ <;> rcases h2 with h2 | ⟨h2e, h2r⟩
    · exact Or.inl (lt_trans h2 h1)
    · exact Or.inl (h2e ▸ h1)
    · exact Or.inl (h1e ▸ h2)
    · exact Or.inr ⟨h1e.trans h2e, le_trans h2r h1r⟩⟩

/-- The per-commodity loop body (lines 28–48 up to the head-n): group the
commodity's rows by CVG, aggregate, filter by eligibility, and stable-sort
descending by the rank relation. -/
def commodityRanked (fya : Int) (df : List CRow) (c : Str) : List CvgStats :=
  List.insertionSort rankR
    ((cvg_stats (df.filter (fun r => decide (r.Commodity = c)))).filter (eligible fya))

/-- pd.Timestamp.now() - pd.DateOffset(years=5) (line 41): the same month
and day five years earlier, the day clamped into the month when the source
day does not exist there (Feb 29). -/
def fiveYearsAgo (now : Date) : Int :=
  toDays ⟨now.year - 5, now.month, min now.day (daysInMonth (now.year - 5) now.month)⟩

/-- Embedding of `select_best_cvgs` (lines 21–50).  The ambient current time
read by pd.Timestamp.now() is an explicit parameter `now`.  The result is
the flat `best_cvgs` list the source builds with `extend`, over the
commodities in first-appearance order. -/
def select_best_cvgs (df : List CRow) (n : Nat) (now : Date) : List Str :=
  let dfp := df.map (fun r => { r with Date := parse_mixed_dates r.Date })
  let fya := fiveYearsAgo now
  (uniqueFirst (dfp.map (fun r => r.Commodity))).flatMap
    (fun c => ((commodityRanked fya dfp c).take n).map (fun s => s.CVG))

/-! ### Resample-Merge Engine

Embedding of `process_data` (source lines 52–87). -/

/-- A raw weather record: integer calendar fields and a measurement
column.  The source handles one or more measurement columns, each
normalized and aggregated independently and identically; one
representative column TEMP is modelled. -/
structure WRow where
  YEAR : Int
  MO : Int
  DY : Int
  TEMP : ℚ
deriving DecidableEq

/-- A normalized weather row after lines 60–66: a Date built from the three
integer fields (which are then dropped), and the -999 sentinel replaced by
the missing marker. -/
structure NWRow where
  Date : Date
  TEMP : Option ℚ
deriving DecidableEq

/-- pd.to_datetime on a year/month/day dict (line 60): calendar-invalid
combinations raise, modelled as `none`. -/
def mkTimestamp (y m d : Int) : Option Date :=
  if validDate ⟨y, m, d⟩ then some ⟨y, m, d⟩ else none

/-- Lines 60–66: build the Date column, drop YEAR/MO/DY, replace -999 with
the missing marker (the replace runs over every remaining column; datetime
cells never equal -999).  `none` when any row has calendar-invalid fields:
the whole request fails. -/
def normalizeWeather : List WRow → Option (List NWRow)
  | [] => some []
  | r :: rest =>
    match mkTimestamp r.YEAR r.MO r.DY, normalizeWeather rest with
    | some dt, some rest' =>
      some ({ Date := dt, TEMP := if r.TEMP = (-999 : ℚ) then none else some r.TEMP } :: rest')
    | _, _ => none

/-- A projected commodity row of line 54 whose Date parsed (line 57). -/
structure PRow where
  date : Date
  Modal : Option ℚ
  Arrivals : Option ℚ
deriving DecidableEq

/-- Lines 54–57 plus resample's NaT handling: filter to the selected CVG,
project to Date/Modal/Arrivals and parse the dates; rows whose date is NaT
are ignored by resample and are dropped here. -/
def parsedRows (commodity_df : List CRow) (selected_cvg : Str) : List PRow :=
  (commodity_df.filter (fun r => decide (r.CVG = selected_cvg))).filterMap
    (fun r => (parse_mixed_dates r.Date).map (fun dt => ⟨dt, r.Modal, r.Arrivals⟩))

/-- Mean of the present values of a column; missing on an empty set
(pandas mean skips missing values and is NaN on an empty window). -/
def meanQ (l : List ℚ) : Option ℚ := if l = [] then none else some (l.sum / (l.length : ℚ))

/-- pandas sum: missing values count as zero and the empty sum is 0. -/
def sumQ (l : List (Option ℚ)) : ℚ := (l.filterMap id).sum

/-- Consecutive integer labels from `k0` to `k1`. -/
def intRange (k0 k1 : Int) : List Int :=
  (List.range ((k1 - k0).toNat + 1)).map (fun i : Nat => k0 + (i : Int))

/-- The W-SUN window labels covering days `lo` to `hi`: the window-ending
Sundays, seven days apart. -/
def weekLabels (lo hi : Int) : List Int :=
  (List.range ((weekEnd hi - weekEnd lo).toNat / 7 + 1)).map
    (fun i : Nat => weekEnd lo + 7 * (i : Int))

/-- A row of the commodity-side weekly/monthly aggregation (lines 69–77). -/
structure CWRow where
  Date : Int
  Modal : Option ℚ
  Arrivals : ℚ
deriving DecidableEq

/-- Weekly resample-aggregate of lines 69–72: bucket the rows into W-SUN
windows labelled by their ending Sunday; per window, mean of Modal and sum
of Arrivals.  Every window between the one containing the first date and
the one containing the last appears, empty ones included; empty input
gives the empty table. -/
def dfWeekly (rows : List PRow) : List CWRow :=
  match optMin (rows.map (fun r => toDays r.date)), optMax (rows.map (fun r => toDays r.date)) with
  | some lo, some hi =>
    (weekLabels lo hi).map (fun w =>
      let g := rows.filter (fun r => decide (weekEnd (toDays r.date) = w))
      { Date := w, Modal := meanQ (g.filterMap (fun r => r.Modal)),
        Arrivals := sumQ (g.map (fun r => r.Arrivals)) })
  | _, _ => []

/-- Monthly resample-aggregate of lines 74–77: buckets are calendar months,
labelled by the first day of the month ('MS'). -/
def dfMonthly (rows : List PRow) : List CWRow :=
  match optMin (rows.map (fun r => mIdx r.date)), optMax (rows.map (fun r => mIdx r.date)) with
  | some k0, some k1 =>
    (intRange k0 k1).map (fun k =>
      let g := rows.filter (fun r => decide (mIdx r.date = k))
      { Date := monthStart k, Modal := meanQ (g.filterMap (fun r => r.Modal)),
        Arrivals := sumQ (g.map (fun r => r.Arrivals)) })
  | _, _ => []

/-- A row of the weather-side weekly/monthly aggregation (lines 80–81). -/
structure WWRow where
  Date : Int
  TEMP : Option ℚ
deriving DecidableEq

/-- Weekly weather resample of line 80: mean of each measurement column
over the W-SUN windows covering the weather dates. -/
def weatherWeekly (rows : List NWRow) : List WWRow :=
  match optMin (rows.map (fun r => toDays r.Date)), optMax (rows.map (fun r => toDays r.Date)) with
  | some lo, some hi =>
    (weekLabels lo hi).map (fun w =>
      let g := rows.filter (fun r => decide (weekEnd (toDays r.Date) = w))
      { Date := w, TEMP := meanQ (g.filterMap (fun r => r.TEMP)) })
  | _, _ => []

/-- Monthly weather resample of line 81. -/
def weatherMonthly (rows : List NWRow) : List WWRow :=
  match optMin (rows.map (fun r => mIdx r.Date)), optMax (rows.map (fun r => mIdx r.Date)) with
  | some k0, some k1 =>
    (intRange k0 k1).map (fun k =>
      let g := rows.filter (fun r => decide (mIdx r.Date = k))
      { Date := monthStart k, TEMP := meanQ (g.filterMap (fun r => r.TEMP)) })
  | _, _ => []

/-- One row of the merged output tables: Date, Modal, Arrivals, then the
weather measurement columns. -/
structure MRow where
  Date : Int
  Modal : Option ℚ
  Arrivals : ℚ
  TEMP : Option ℚ
deriving DecidableEq

/-- Left merge on exact Date equality (lines 84–85): the commodity rows are
kept, in order; the weather columns come from the weather row with equal
Date when one exists and stay missing otherwise.  The weather table's Date
labels are pairwise distinct, so the pandas many-to-one left join yields
exactly one output row per left row. -/
def mergeLeft (c : List CWRow) (w : List WWRow) : List MRow :=
  c.map (fun r =>
    { Date := r.Date, Modal := r.Modal, Arrivals := r.Arrivals,
      TEMP := (w.find? (fun x => decide (x.Date = r.Date))).bind (fun x => x.TEMP) })

/-- Embedding of `process_data` (lines 52–87).  `none` models the request
failing when a weather row has calendar-invalid fields (line 60 raises). -/
def process_data (commodity_df : List CRow) (weather_df : List WRow) (selected_cvg : Str) :
    Option (List MRow × List MRow) :=
  (normalizeWeather weather_df).map (fun wn =>
    let rows := parsedRows commodity_df selected_cvg
    (mergeLeft (dfWeekly rows) (weatherWeekly wn),
     mergeLeft (dfMonthly rows) (weatherMonthly wn)))

/-- The dataset the caller's weather_df variable holds after process_data
returns: lines 60–66 mutate it in place (column assignment, drop and
replace with inplace=True), so the caller is left with the normalized
table — the YEAR/MO/DY columns gone and the sentinel replaced — not with
the dataset it passed in. -/
def weather_df_after (weather_df : List WRow) : Option (List NWRow) :=
  normalizeWeather weather_df

/-! ### Supporting lemmas -/

theorem le_weekEnd (d : Int) : d ≤ weekEnd d := by unfold weekEnd; omega

theorem weekEnd_lt (d : Int) : weekEnd d < d + 7 := by unfold weekEnd; omega

theorem weekEnd_mod (d : Int) : weekEnd d % 7 = 3 := by unfold weekEnd; omega

theorem weekEnd_mono {d e : Int} (h : d ≤ e) : weekEnd d ≤ weekEnd e := by
  unfold weekEnd; omega

theorem weekEnd_of_mod {w : Int} (h : w % 7 = 3) : weekEnd w = w := by
  unfold weekEnd; omega

theorem monthStart_strictMono {k k' : Int} (h : k < k') : monthStart k < monthStart k' := by
  have key : ∀ n : Nat, monthStart k < monthStart (k + 1 + n) := by
    intro n
    induction n with
    | zero => simpa using monthStart_lt_succ k
    | succ m ih =>
      have hs := monthStart_lt_succ (k + 1 + m)
      have he : k + 1 + ((m + 1 : Nat) : Int) = (k + 1 + m) + 1 := by push_cast; ring
      rw [he]
      exact lt_trans ih hs
  have hk : k' = k + 1 + ((k' - k - 1).toNat : Int) := by omega
  rw [hk]
  exact key _

theorem optMin_eq_none_iff (l : List Int) : optMin l = none ↔ l = [] := by
  cases l <;> simp [optMin]

theorem optMin_le {l : List Int} {m : Int} (h : optMin l = some m) :
    ∀ x ∈ l, m ≤ x := by
  induction l generalizing m with
  | nil => simp [optMin] at h
  | cons a t ih =>
    intro x hx
    unfold optMin at h
    rcases List.mem_cons.mp hx with hx | hx
    · subst hx
      cases ht : optMin t with
      | none => rw [ht] at h; simp at h; omega
      | some mt => rw [ht] at h; simp at h; omega
    · cases ht : optMin t with
      | none => rw [(optMin_eq_none_iff t).mp ht] at hx; simp at hx
      | some mt =>
        rw [ht] at h; simp at h
        have := ih ht x hx
        omega

theorem optMin_mem {l : List Int} {m : Int} (h : optMin l = some m) : m ∈ l := by
  induction l generalizing m with
  | nil => simp [optMin] at h
  | cons a t ih =>
    unfold optMin at h
    cases ht : optMin t with
    | none => rw [ht] at h; simp at h; subst h; exact List.mem_cons_self a t
    | some mt =>
      rw [ht] at h; simp at h
      rcases min_cases a mt with ⟨he, _⟩ | ⟨he, _⟩
      · rw [he] at h; subst h; exact List.mem_cons_self a t
      · rw [he] at h; subst h; exact List.mem_cons_of_mem a (ih ht)

theorem optMax_eq_none_iff (l : List Int) : optMax l = none ↔ l = [] := by
  cases l <;> simp [optMax]

theorem optMax_ge {l : List Int} {m : Int} (h : optMax l = some m) :
    ∀ x ∈ l, x ≤ m := by
  induction l generalizing m with
  | nil => simp [optMax] at h
  | cons a t ih =>
    intro x hx
    unfold optMax at h
    rcases List.mem_cons.mp hx with hx | hx
    · subst hx
      cases ht : optMax t with
      | none => rw [ht] at h; simp at h; omega
      | some mt => rw [ht] at h; simp at h; omega
    · cases ht : optMax t with
      | none => rw [(optMax_eq_none_iff t).mp ht] at hx; simp at hx
      | some mt =>
        rw [ht] at h; simp at h
        have := ih ht x hx
        omega

theorem optMax_mem {l : List Int} {m : Int} (h : optMax l = some m) : m ∈ l := by
  induction l generalizing m with
  | nil => simp [optMax] at h
  | cons a t ih =>
    unfold optMax at h
    cases ht : optMax t with
    | none => rw [ht] at h; simp at h; subst h; exact List.mem_cons_self a t
    | some mt =>
      rw [ht] at h; simp at h
      rcases max_cases a mt with ⟨he, _⟩ | ⟨he, _⟩
      · rw [he] at h; subst h; exact List.mem_cons_self a t
      · rw [he] at h; subst h; exact List.mem_cons_of_mem a (ih ht)

theorem optMin_perm {l l' : List Int} (p : l.Perm l') : optMin l = optMin l' := by
  induction p with
  | nil => rfl
  | cons a p ih => unfold optMin; rw [ih]
  | swap a b t =>
    show optMin (b :: a :: t) = optMin (a :: b :: t)
    cases ht : optMin t with
    | none => simp only [optMin, ht]; rw [min_comm]
    | some m => simp only [optMin, ht]; rw [min_left_comm]
  | trans p q ih1 ih2 => exact ih1.trans ih2

theorem optMax_perm {l l' : List Int} (p : l.Perm l') : optMax l = optMax l' := by
  induction p with
  | nil => rfl
  | cons a p ih => unfold optMax; rw [ih]
  | swap a b t =>
    show optMax (b :: a :: t) = optMax (a :: b :: t)
    cases ht : optMax t with
    | none => simp only [optMax, ht]; rw [max_comm]
    | some m => simp only [optMax, ht]; rw [max_left_comm]
  | trans p q ih1 ih2 => exact ih1.trans ih2

/-! ### C9: the identifier builder is injective and splittable -/

/-- C9: for records whose four fields contain no underscore, splitting the
CVG key on the underscore delimiter recovers the four fields in order, and
the key builder is injective: two such records with the same key are the
same record. -/
theorem create_cvg_identifier_inj_split (r1 r2 : RawRow)
    (h1 : '_' ∉ r1.Commodity ∧ '_' ∉ r1.Variety ∧ '_' ∉ r1.Grade ∧ '_' ∉ r1.Market)
    (h2 : '_' ∉ r2.Commodity ∧ '_' ∉ r2.Variety ∧ '_' ∉ r2.Grade ∧ '_' ∉ r2.Market) :
    splitOnUnderscore (create_cvg_identifier r1)
        = [r1.Commodity, r1.Variety, r1.Grade, r1.Market] ∧
      (create_cvg_identifier r1 = create_cvg_identifier r2 → r1 = r2) := by
  obtain ⟨hc1, hv1, hg1, hm1⟩ := h1
  obtain ⟨hc2, hv2, hg2, hm2⟩ := h2
  have split4 : ∀ r : RawRow, '_' ∉ r.Commodity → '_' ∉ r.Variety → '_' ∉ r.Grade →
      '_' ∉ r.Market →
      splitOnUnderscore (create_cvg_identifier r)
        = [r.Commodity, r.Variety, r.Grade, r.Market] := by
    intro r hc hv hg hm
    unfold create_cvg_identifier
    rw [splitOnUnderscore_append hc, splitOnUnderscore_append hv, splitOnUnderscore_append hg,
      splitOnUnderscore_no_sep hm]
  refine ⟨split4 r1 hc1 hv1 hg1 hm1, fun he => ?_⟩
  have hs := (split4 r1 hc1 hv1 hg1 hm1).symm.trans (he ▸ split4 r2 hc2 hv2 hg2 hm2)
  simp only [List.cons.injEq] at hs
  obtain ⟨e1, e2, e3, e4, _⟩ := hs
  cases r1
  cases r2
  simp_all

/-- Witness for C9 at two concrete records. -/
theorem create_cvg_identifier_inj_split_witness :
    splitOnUnderscore (create_cvg_identifier ⟨['W'], ['D'], ['A'], ['X']⟩)
        = [['W'], ['D'], ['A'], ['X']] ∧
      (create_cvg_identifier ⟨['W'], ['D'], ['A'], ['X']⟩
          = create_cvg_identifier ⟨['W'], ['D'], ['B'], ['X']⟩ →
        (⟨['W'], ['D'], ['A'], ['X']⟩ : RawRow) = ⟨['W'], ['D'], ['B'], ['X']⟩) :=
  create_cvg_identifier_inj_split ⟨['W'], ['D'], ['A'], ['X']⟩ ⟨['W'], ['D'], ['B'], ['X']⟩
    (by decide) (by decide)

/-! ### C5: sentinel normalization -/

set_option maxRecDepth 20000 in
/-- C5: every -999 sentinel in the measurement column is replaced by the
missing marker before any aggregation — no normalized weather row carries
the sentinel — and the scenario row YEAR=2020, MO=1, DY=1, TEMP=-999
normalizes to Date 2020-01-01 with TEMP missing; being the only row of its
Sunday-ending weekly window (labelled 2020-01-05), that window's TEMP mean
is missing. -/
theorem sentinel_normalized_before_aggregation :
    (∀ (wdf : List WRow) (wn : List NWRow), normalizeWeather wdf = some wn →
      ∀ r ∈ wn, r.TEMP ≠ some (-999 : ℚ)) ∧
    normalizeWeather [⟨2020, 1, 1, -999⟩] = some [⟨⟨2020, 1, 1⟩, none⟩] ∧
    weatherWeekly [⟨⟨2020, 1, 1⟩, none⟩] = [⟨toDays ⟨2020, 1, 5⟩, none⟩] := by
  refine ⟨?_, by decide, by decide⟩
  intro wdf
  induction wdf with
  | nil =>
    intro wn h r hr
    unfold normalizeWeather at h
    simp at h
    subst h
    simp at hr
  | cons a t ih =>
    intro wn h r hr
    unfold normalizeWeather at h
    cases hm : mkTimestamp a.YEAR a.MO a.DY with
    | none => rw [hm] at h; simp at h
    | some dt =>
      cases hn : normalizeWeather t with
      | none => rw [hm, hn] at h; simp at h
      | some t' =>
        rw [hm, hn] at h
        simp only [Option.some.injEq] at h
        subst h
        rcases List.mem_cons.mp hr with hr | hr
        · subst hr
          by_cases hT : a.TEMP = (-999 : ℚ) <;> simp [hT]
        · exact ih t' hn r hr

/-- Witness for C5's general conjunct at the scenario input. -/
theorem sentinel_normalized_witness :
    (⟨⟨2020, 1, 1⟩, none⟩ : NWRow).TEMP ≠ some (-999 : ℚ) :=
  sentinel_normalized_before_aggregation.1 [⟨2020, 1, 1, -999⟩] [⟨⟨2020, 1, 1⟩, none⟩]
    (by decide) ⟨⟨2020, 1, 1⟩, none⟩ (by simp)

/-! ### C7: unmatched selected key -/

/-- C7: a selected key that matches no commodity record produces two
structurally valid but empty tables rather than an error: whenever the
weather dates are calendar-valid (the only failure source in the engine),
process_data returns some pair and both tables are empty. -/
theorem process_data_empty_for_unmatched_key (cdf : List CRow) (wdf : List WRow) (key : Str)
    (wn : List NWRow) (hw : normalizeWeather wdf = some wn)
    (hkey : ∀ r ∈ cdf, r.CVG ≠ key) :
    process_data cdf wdf key = some ([], []) := by
  have hfil : cdf.filter (fun r => decide (r.CVG = key)) = [] := by
    rw [List.filter_eq_nil_iff]
    intro a ha
    simp [hkey a ha]
  have hrows : parsedRows cdf key = [] := by
    unfold parsedRows
    rw [hfil]
    rfl
  unfold process_data
  rw [hw]
  simp [hrows, dfWeekly, dfMonthly, optMin, mergeLeft]

/-- Witness for C7 at a concrete unmatched key. -/
theorem process_data_empty_witness :
    process_data [⟨['B'], ['B'], some ⟨1970, 1, 4⟩, some 1, some 1⟩] [⟨1970, 1, 2, 5⟩] ['A']
      = some ([], []) :=
  process_data_empty_for_unmatched_key _ _ _ [⟨⟨1970, 1, 2⟩, some 5⟩] (by decide) (by decide)

/-! ### C8: the inputs are not left unchanged (code bug) -/

/-- C8 names a property the code does not have: process_data mutates its
weather input in place (lines 60–66: column assignment, drop and replace
with inplace=True).  After the call the caller's weather_df variable holds
the normalized table — the YEAR/MO/DY columns are gone and the -999
sentinel has been replaced by the missing marker — not the dataset that
was passed in, and a second process_data call on the same session dataset
fails on the missing YEAR column.  Evaluation at the failing input: the
caller's frame after the call differs from the raw record it held
before. -/
theorem weather_df_mutated_after_call :
    weather_df_after [⟨2020, 1, 1, -999⟩] = some [⟨⟨2020, 1, 1⟩, none⟩] ∧
      (⟨⟨2020, 1, 1⟩, none⟩ : NWRow).TEMP ≠ some ((⟨2020, 1, 1, (-999 : ℚ)⟩ : WRow).TEMP) :=
  ⟨by decide, by decide⟩

/-! ### Window label lemmas -/

theorem weekLabels_pairwise (lo hi : Int) : List.Pairwise (· < ·) (weekLabels lo hi) := by
  unfold weekLabels
  exact List.Pairwise.map _ (fun a b hab => by omega) (List.pairwise_lt_range _)

theorem intRange_pairwise (k0 k1 : Int) : List.Pairwise (· < ·) (intRange k0 k1) := by
  unfold intRange
  exact List.Pairwise.map _ (fun a b hab => by omega) (List.pairwise_lt_range _)

theorem weekLabels_mem {lo hi : Int} (hle : lo ≤ hi) (w : Int) :
    w ∈ weekLabels lo hi ↔ w % 7 = 3 ∧ weekEnd lo ≤ w ∧ w ≤ weekEnd hi := by
  have hma := weekEnd_mod lo
  have hmb := weekEnd_mod hi
  have hmono := weekEnd_mono hle
  unfold weekLabels
  simp only [List.mem_map, List.mem_range]
  constructor
  · rintro ⟨i, hi1, rfl⟩
    refine ⟨by omega, by omega, by omega⟩
  · rintro ⟨hw, h1, h2⟩
    refine ⟨(w - weekEnd lo).toNat / 7, by omega, by omega⟩

theorem intRange_mem {k0 k1 : Int} (hle : k0 ≤ k1) (k : Int) :
    k ∈ intRange k0 k1 ↔ k0 ≤ k ∧ k ≤ k1 := by
  unfold intRange
  simp only [List.mem_map, List.mem_range]
  constructor
  · rintro ⟨i, hi1, rfl⟩
    omega
  · rintro ⟨h1, h2⟩
    exact ⟨(k - k0).toNat, by omega, by omega⟩

theorem monthStart_inj {k k' : Int} (h : monthStart k = monthStart k') : k = k' := by
  rcases lt_trichotomy k k' with hlt | he | hlt
  · exact absurd h (ne_of_lt (monthStart_strictMono hlt))
  · exact he
  · exact absurd h.symm (ne_of_lt (monthStart_strictMono hlt))

/-! ### Merge and aggregation lemmas -/

theorem mergeLeft_map_date (c : List CWRow) (w : List WWRow) :
    (mergeLeft c w).map (fun r => r.Date) = c.map (fun r => r.Date) := by
  unfold mergeLeft
  rw [List.map_map]
  rfl

theorem mergeLeft_map_cma (c : List CWRow) (w : List WWRow) :
    (mergeLeft c w).map (fun r => (r.Date, r.Modal, r.Arrivals))
      = c.map (fun r => (r.Date, r.Modal, r.Arrivals)) := by
  unfold mergeLeft
  rw [List.map_map]
  rfl

theorem mergeLeft_temp_none {c : List CWRow} {w : List WWRow} {r : MRow}
    (hr : r ∈ mergeLeft c w) (hnw : ∀ x ∈ w, x.Date ≠ r.Date) : r.TEMP = none := by
  unfold mergeLeft at hr
  rcases List.mem_map.mp hr with ⟨c0, _, rfl⟩
  have hfind : w.find? (fun x => decide (x.Date = c0.Date)) = none := by
    rw [List.find?_eq_none]
    intro x hx
    simpa using hnw x hx
  simp [hfind]

theorem dfWeekly_eq {rows : List PRow} {lo hi : Int}
    (hlo : optMin (rows.map (fun r => toDays r.date)) = some lo)
    (hhi : optMax (rows.map (fun r => toDays r.date)) = some hi) :
    dfWeekly rows = (weekLabels lo hi).map (fun w =>
      { Date := w,
        Modal := meanQ ((rows.filter (fun r => decide (weekEnd (toDays r.date) = w))).filterMap
          (fun r => r.Modal)),
        Arrivals := sumQ ((rows.filter (fun r => decide (weekEnd (toDays r.date) = w))).map
          (fun r => r.Arrivals)) }) := by
  unfold dfWeekly
  rw [hlo, hhi]

theorem dfMonthly_eq {rows : List PRow} {k0 k1 : Int}
    (hk0 : optMin (rows.map (fun r => mIdx r.date)) = some k0)
    (hk1 : optMax (rows.map (fun r => mIdx r.date)) = some k1) :
    dfMonthly rows = (intRange k0 k1).map (fun k =>
      { Date := monthStart k,
        Modal := meanQ ((rows.filter (fun r => decide (mIdx r.date = k))).filterMap
          (fun r => r.Modal)),
        Arrivals := sumQ ((rows.filter (fun r => decide (mIdx r.date = k))).map
          (fun r => r.Arrivals)) }) := by
  unfold dfMonthly
  rw [hk0, hk1]

theorem optMin_isSome_of_ne_nil {l : List Int} (h : l ≠ []) : ∃ m, optMin l = some m := by
  cases hm : optMin l with
  | none => exact absurd ((optMin_eq_none_iff l).mp hm) h
  | some v => exact ⟨v, rfl⟩

theorem optMax_isSome_of_ne_nil {l : List Int} (h : l ≠ []) : ∃ m, optMax l = some m := by
  cases hm : optMax l with
  | none => exact absurd ((optMax_eq_none_iff l).mp hm) h
  | some v => exact ⟨v, rfl⟩

theorem dfWeekly_dates_pairwise (rows : List PRow) :
    List.Pairwise (· < ·) ((dfWeekly rows).map (fun r => r.Date)) := by
  cases hro : rows with
  | nil => simp [dfWeekly, optMin]
  | cons p ps =>
    obtain ⟨lo, hlo⟩ := optMin_isSome_of_ne_nil
      (l := (p :: ps).map (fun r => toDays r.date)) (by simp)
    obtain ⟨hi, hhi⟩ := optMax_isSome_of_ne_nil
      (l := (p :: ps).map (fun r => toDays r.date)) (by simp)
    rw [dfWeekly_eq hlo hhi, List.map_map]
    exact List.Pairwise.map _ (fun a b hab => hab) (weekLabels_pairwise lo hi)

theorem dfMonthly_dates_pairwise (rows : List PRow) :
    List.Pairwise (· < ·) ((dfMonthly rows).map (fun r => r.Date)) := by
  cases hro : rows with
  | nil => simp [dfMonthly, optMin]
  | cons p ps =>
    obtain ⟨k0, hk0⟩ := optMin_isSome_of_ne_nil
      (l := (p :: ps).map (fun r => mIdx r.date)) (by simp)
    obtain ⟨k1, hk1⟩ := optMax_isSome_of_ne_nil
      (l := (p :: ps).map (fun r => mIdx r.date)) (by simp)
    rw [dfMonthly_eq hk0 hk1, List.map_map]
    exact List.Pairwise.map _ (fun a b hab => monthStart_strictMono hab) (intRange_pairwise k0 k1)

/-! ### C2: the merged tables are sorted and left-joined -/

/-- C2: for every selected key, both output tables have a strictly
ascending, duplicate-free Date column; each table carries exactly the rows
of the commodity-side aggregation (same Dates, Modal and Arrivals, in
order); and a commodity window with no weather row of equal Date keeps its
row with the weather measurement column missing, rather than being
dropped. -/
theorem reshape_tables_sorted_left_join
    (cdf : List CRow) (wdf : List WRow) (key : Str) (wn : List NWRow)
    (wtab mtab : List MRow)
    (hw : normalizeWeather wdf = some wn)
    (h : process_data cdf wdf key = some (wtab, mtab)) :
    List.Pairwise (· < ·) (wtab.map (fun r => r.Date)) ∧
    List.Pairwise (· < ·) (mtab.map (fun r => r.Date)) ∧
    wtab.map (fun r => (r.Date, r.Modal, r.Arrivals))
        = (dfWeekly (parsedRows cdf key)).map (fun r => (r.Date, r.Modal, r.Arrivals)) ∧
    mtab.map (fun r => (r.Date, r.Modal, r.Arrivals))
        = (dfMonthly (parsedRows cdf key)).map (fun r => (r.Date, r.Modal, r.Arrivals)) ∧
    (∀ r ∈ wtab, (∀ x ∈ weatherWeekly wn, x.Date ≠ r.Date) → r.TEMP = none) ∧
    (∀ r ∈ mtab, (∀ x ∈ weatherMonthly wn, x.Date ≠ r.Date) → r.TEMP = none) := by
  unfold process_data at h
  rw [hw] at h
  simp only [Option.map_some', Option.some.injEq, Prod.mk.injEq] at h
  obtain ⟨hwt, hmt⟩ := h
  subst hwt
  subst hmt
  refine ⟨?_, ?_, mergeLeft_map_cma _ _, mergeLeft_map_cma _ _, ?_, ?_⟩
  · rw [mergeLeft_map_date]
    exact dfWeekly_dates_pairwise _
  · rw [mergeLeft_map_date]
    exact dfMonthly_dates_pairwise _
  · intro r hr hx
    exact mergeLeft_temp_none hr hx
  · intro r hr hx
    exact mergeLeft_temp_none hr hx

/-- Witness for C2 at a concrete one-row selection. -/
theorem reshape_tables_sorted_left_join_witness :
    List.Pairwise (· < ·)
      (([⟨3, none, 0, none⟩] : List MRow).map (fun r => r.Date)) :=
  (reshape_tables_sorted_left_join
    [⟨['A'], ['A'], some ⟨1970, 1, 4⟩, none, none⟩] [⟨1970, 1, 2, -999⟩] ['A']
    [⟨⟨1970, 1, 2⟩, none⟩] [⟨3, none, 0, none⟩] [⟨0, none, 0, none⟩]
    (by decide) (by decide)).1

/-! ### C10: every window between the first and last parsed date is emitted -/

/-- C10: when the selection has at least one parseable date, the weekly
table contains one row for exactly every Sunday-ending window label from
the window of the earliest parsed commodity date through the window of the
latest (a label is a Sunday: congruent to 3 modulo 7 as a day number), and
the monthly table one row for exactly every month-start label between the
earliest and latest parsed months; a window with no contributing commodity
rows still appears, with Modal missing and Arrivals 0. -/
theorem resample_emits_every_window
    (cdf : List CRow) (wdf : List WRow) (key : Str) (wn : List NWRow)
    (wtab mtab : List MRow)
    (hw : normalizeWeather wdf = some wn)
    (h : process_data cdf wdf key = some (wtab, mtab))
    (hne : parsedRows cdf key ≠ []) :
    ∃ lo hi k0 k1 : Int,
      optMin ((parsedRows cdf key).map (fun r => toDays r.date)) = some lo ∧
      optMax ((parsedRows cdf key).map (fun r => toDays r.date)) = some hi ∧
      optMin ((parsedRows cdf key).map (fun r => mIdx r.date)) = some k0 ∧
      optMax ((parsedRows cdf key).map (fun r => mIdx r.date)) = some k1 ∧
      (∀ w : Int, w ∈ wtab.map (fun r => r.Date) ↔
        w % 7 = 3 ∧ weekEnd lo ≤ w ∧ w ≤ weekEnd hi) ∧
      (∀ m : Int, m ∈ mtab.map (fun r => r.Date) ↔
        ∃ k : Int, k0 ≤ k ∧ k ≤ k1 ∧ m = monthStart k) ∧
      (∀ r ∈ wtab, (∀ p ∈ parsedRows cdf key, weekEnd (toDays p.date) ≠ r.Date) →
        r.Modal = none ∧ r.Arrivals = 0) ∧
      (∀ r ∈ mtab, (∀ p ∈ parsedRows cdf key, monthStart (mIdx p.date) ≠ r.Date) →
        r.Modal = none ∧ r.Arrivals = 0) := by
  unfold process_data at h
  rw [hw] at h
  simp only [Option.map_some', Option.some.injEq, Prod.mk.injEq] at h
  obtain ⟨hwt, hmt⟩ := h
  subst hwt
  subst hmt
  obtain ⟨lo, hlo⟩ := optMin_isSome_of_ne_nil
    (l := (parsedRows cdf key).map (fun r => toDays r.date)) (by simpa using hne)
  obtain ⟨hi, hhi⟩ := optMax_isSome_of_ne_nil
    (l := (parsedRows cdf key).map (fun r => toDays r.date)) (by simpa using hne)
  obtain ⟨k0, hk0⟩ := optMin_isSome_of_ne_nil
    (l := (parsedRows cdf key).map (fun r => mIdx r.date)) (by simpa using hne)
  obtain ⟨k1, hk1⟩ := optMax_isSome_of_ne_nil
    (l := (parsedRows cdf key).map (fun r => mIdx r.date)) (by simpa using hne)
  have hle : lo ≤ hi :=
    optMin_le hlo hi (optMax_mem hhi)
  have hkle : k0 ≤ k1 :=
    optMin_le hk0 k1 (optMax_mem hk1)
  have hwdates : (mergeLeft (dfWeekly (parsedRows cdf key)) (weatherWeekly wn)).map
      (fun r => r.Date) = weekLabels lo hi := by
    rw [mergeLeft_map_date, dfWeekly_eq hlo hhi, List.map_map]
    exact List.map_id' _
  have hmdates : (mergeLeft (dfMonthly (parsedRows cdf key)) (weatherMonthly wn)).map
      (fun r => r.Date) = (intRange k0 k1).map (fun k => monthStart k) := by
    rw [mergeLeft_map_date, dfMonthly_eq hk0 hk1, List.map_map]
    rfl
  refine ⟨lo, hi, k0, k1, hlo, hhi, hk0, hk1, ?_, ?_, ?_, ?_⟩
  · intro w
    rw [hwdates]
    exact weekLabels_mem hle w
  · intro m
    rw [hmdates]
    simp only [List.mem_map]
    constructor
    · rintro ⟨k, hk, rfl⟩
      rcases (intRange_mem hkle k).mp hk with ⟨h1, h2⟩
      exact ⟨k, h1, h2, rfl⟩
    · rintro ⟨k, h1, h2, rfl⟩
      exact ⟨k, (intRange_mem hkle k).mpr ⟨h1, h2⟩, rfl⟩
  · intro r hr hempty
    unfold mergeLeft at hr
    rcases List.mem_map.mp hr with ⟨c0, hc0, rfl⟩
    rw [dfWeekly_eq hlo hhi] at hc0
    rcases List.mem_map.mp hc0 with ⟨w0, _, rfl⟩
    have hfe : (parsedRows cdf key).filter
        (fun p => decide (weekEnd (toDays p.date) = w0)) = [] := by
      rw [List.filter_eq_nil_iff]
      intro p hp
      simpa using hempty p hp
    constructor
    · show meanQ _ = none
      rw [hfe]
      rfl
    · show sumQ _ = 0
      rw [hfe]
      rfl
  · intro r hr hempty
    unfold mergeLeft at hr
    rcases List.mem_map.mp hr with ⟨c0, hc0, rfl⟩
    rw [dfMonthly_eq hk0 hk1] at hc0
    rcases List.mem_map.mp hc0 with ⟨k, _, rfl⟩
    have hfe : (parsedRows cdf key).filter
        (fun p => decide (mIdx p.date = k)) = [] := by
      rw [List.filter_eq_nil_iff]
      intro p hp
      have hne2 : monthStart (mIdx p.date) ≠ monthStart k := hempty p hp
      have : mIdx p.date ≠ k := fun he => hne2 (by rw [he])
      simpa using this
    constructor
    · show meanQ _ = none
      rw [hfe]
      rfl
    · show sumQ _ = 0
      rw [hfe]
      rfl

/-- Witness for C10 at a concrete one-row selection. -/
theorem resample_emits_every_window_witness :
    ∃ lo hi k0 k1 : Int,
      optMin ((parsedRows [⟨['A'], ['A'], some ⟨1970, 1, 4⟩, none, none⟩] ['A']).map
        (fun r => toDays r.date)) = some lo ∧
      optMax ((parsedRows [⟨['A'], ['A'], some ⟨1970, 1, 4⟩, none, none⟩] ['A']).map
        (fun r => toDays r.date)) = some hi ∧
      optMin ((parsedRows [⟨['A'], ['A'], some ⟨1970, 1, 4⟩, none, none⟩] ['A']).map
        (fun r => mIdx r.date)) = some k0 ∧
      optMax ((parsedRows [⟨['A'], ['A'], some ⟨1970, 1, 4⟩, none, none⟩] ['A']).map
        (fun r => mIdx r.date)) = some k1 ∧
      (∀ w : Int, w ∈ ([⟨3, none, 0, none⟩] : List MRow).map (fun r => r.Date) ↔
        w % 7 = 3 ∧ weekEnd lo ≤ w ∧ w ≤ weekEnd hi) ∧
      (∀ m : Int, m ∈ ([⟨0, none, 0, none⟩] : List MRow).map (fun r => r.Date) ↔
        ∃ k : Int, k0 ≤ k ∧ k ≤ k1 ∧ m = monthStart k) ∧
      (∀ r ∈ ([⟨3, none, 0, none⟩] : List MRow),
        (∀ p ∈ parsedRows [⟨['A'], ['A'], some ⟨1970, 1, 4⟩, none, none⟩] ['A'],
          weekEnd (toDays p.date) ≠ r.Date) →
        r.Modal = none ∧ r.Arrivals = 0) ∧
      (∀ r ∈ ([⟨0, none, 0, none⟩] : List MRow),
        (∀ p ∈ parsedRows [⟨['A'], ['A'], some ⟨1970, 1, 4⟩, none, none⟩] ['A'],
          monthStart (mIdx p.date) ≠ r.Date) →
        r.Modal = none ∧ r.Arrivals = 0) :=
  resample_emits_every_window
    [⟨['A'], ['A'], some ⟨1970, 1, 4⟩, none, none⟩] [⟨1970, 1, 2, -999⟩] ['A']
    [⟨⟨1970, 1, 2⟩, none⟩] [⟨3, none, 0, none⟩] [⟨0, none, 0, none⟩]
    (by decide) (by decide) (by decide)

/-! ### Deduplication and block lemmas -/

theorem uniqueFirst_mem (l : List Str) (x : Str) : x ∈ uniqueFirst l ↔ x ∈ l := by
  induction l with
  | nil => simp [uniqueFirst]
  | cons a t ih =>
    unfold uniqueFirst
    by_cases hx : x = a
    · subst hx
      simp
    · simp only [List.mem_cons, List.mem_filter]
      constructor
      · rintro (h | ⟨h, _⟩)
        · exact Or.inl h
        · exact Or.inr (ih.mp h)
      · rintro (h | h)
        · exact Or.inl h
        · exact Or.inr ⟨ih.mpr h, by simpa using hx⟩

theorem uniqueFirst_nodup (l : List Str) : (uniqueFirst l).Nodup := by
  induction l with
  | nil => simp [uniqueFirst]
  | cons a t ih =>
    unfold uniqueFirst
    refine List.Nodup.cons ?_ (ih.filter _)
    intro hmem
    rcases List.mem_filter.mp hmem with ⟨_, hne⟩
    simp at hne

theorem uniqueFirst_all_eq {l : List Str} {a : Str} (h : ∀ x ∈ l, x = a) (hne : l ≠ []) :
    uniqueFirst l = [a] := by
  induction l with
  | nil => exact absurd rfl hne
  | cons b t ih =>
    have hb : b = a := h b (List.mem_cons_self b t)
    subst hb
    unfold uniqueFirst
    cases ht : t with
    | nil => rfl
    | cons c u =>
      rw [← ht, ih (fun x hx => h x (List.mem_cons_of_mem b hx)) (by rw [ht]; simp)]
      simp

theorem uniqueFirst_two_blocks {a b : Str} (hab : a ≠ b) (m n : Nat) :
    uniqueFirst (List.replicate (m + 1) a ++ List.replicate (n + 1) b) = [a, b] := by
  have hba : b ≠ a := Ne.symm hab
  induction m with
  | zero =>
    show uniqueFirst (a :: List.replicate (n + 1) b) = [a, b]
    unfold uniqueFirst
    rw [uniqueFirst_all_eq (a := b) (by simp) (by simp)]
    simp [List.filter_singleton, hba]
  | succ p ih =>
    show uniqueFirst (a :: (List.replicate (p + 1) a ++ List.replicate (n + 1) b)) = [a, b]
    unfold uniqueFirst
    rw [ih]
    simp [List.filter_singleton, hba]

theorem filter_replicate_of_pos {p : CRow → Bool} {a : CRow} (h : p a = true) (n : Nat) :
    (List.replicate n a).filter p = List.replicate n a := by
  induction n with
  | zero => rfl
  | succ m ih =>
    rw [List.replicate_succ, List.filter_cons, if_pos (by simp [h]), ih, ← List.replicate_succ]

theorem filter_replicate_of_neg {p : CRow → Bool} {a : CRow} (h : p a = false) (n : Nat) :
    (List.replicate n a).filter p = [] := by
  induction n with
  | zero => rfl
  | succ m ih =>
    rw [List.replicate_succ, List.filter_cons, if_neg (by simp [h]), ih]

theorem filterMap_replicate_some {α β : Type} {f : α → Option β} {a : α} {b : β}
    (h : f a = some b) (n : Nat) :
    (List.replicate n a).filterMap f = List.replicate n b := by
  induction n with
  | zero => rfl
  | succ m ih =>
    rw [List.replicate_succ, List.filterMap_cons, h]
    show b :: List.filterMap f (List.replicate m a) = List.replicate (m + 1) b
    rw [ih, ← List.replicate_succ]

theorem filterMap_replicate_none {α β : Type} {f : α → Option β} {a : α}
    (h : f a = none) (n : Nat) :
    (List.replicate n a).filterMap f = [] := by
  induction n with
  | zero => rfl
  | succ m ih =>
    rw [List.replicate_succ, List.filterMap_cons, h, ih]

theorem optMin_replicate (n : Nat) (d : Int) : optMin (List.replicate (n + 1) d) = some d := by
  induction n with
  | zero => rfl
  | succ m ih =>
    rw [List.replicate_succ]
    unfold optMin
    rw [ih]
    simp

theorem optMax_replicate (n : Nat) (d : Int) : optMax (List.replicate (n + 1) d) = some d := by
  induction n with
  | zero => rfl
  | succ m ih =>
    rw [List.replicate_succ]
    unfold optMax
    rw [ih]
    simp

/-- Line 23 writes the parse result back into the Date column; on the
abstracted date representation this leaves every row unchanged. -/
theorem parse_map_id (df : List CRow) :
    df.map (fun r => { r with Date := parse_mixed_dates r.Date }) = df :=
  List.map_id' df

/-- The loop of lines 27–48 in closed form: concatenation over the
commodities in first-appearance order of the head-n keys of each
commodity's ranked eligible statistics. -/
theorem select_best_cvgs_eq (df : List CRow) (n : Nat) (now : Date) :
    select_best_cvgs df n now
      = (uniqueFirst (df.map (fun r => r.Commodity))).flatMap
          (fun c => ((commodityRanked (fiveYearsAgo now) df c).take n).map (fun s => s.CVG)) := by
  unfold select_best_cvgs
  rw [parse_map_id]

/-! ### Stats field lemmas -/

theorem cvgStatsOf_CVG (g : List CRow) (k : Str) : (cvgStatsOf g k).CVG = k := rfl

theorem cvgStatsOf_start_date (g : List CRow) (k : Str) :
    (cvgStatsOf g k).start_date = optMin (groupDays g) := rfl

theorem cvgStatsOf_end_date (g : List CRow) (k : Str) :
    (cvgStatsOf g k).end_date = optMax (groupDays g) := rfl

theorem cvgStatsOf_total_count (g : List CRow) (k : Str) :
    (cvgStatsOf g k).total_count = (groupDays g).length := rfl

theorem cvgStatsOf_non_null_count (g : List CRow) (k : Str) :
    (cvgStatsOf g k).non_null_count = (g.filterMap (fun r => r.Modal)).length := rfl

/-! ### C1: the eligibility filter is sound -/

/-- C1: every key returned by select_best_cvgs comes from a per-commodity
statistics row that passed the eligibility filter: at least 500
non-missing Modal values, and an end date that exists and is on or after
five years before the current processing time.  A series failing either
threshold is never returned. -/
theorem rank_series_eligibility (df : List CRow) (n : Nat) (now : Date) (k : Str)
    (hk : k ∈ select_best_cvgs df n now) :
    ∃ c ∈ uniqueFirst (df.map (fun r => r.Commodity)),
      ∃ s ∈ commodityRanked (fiveYearsAgo now) df c,
        s.CVG = k ∧ 500 ≤ s.non_null_count ∧
        ∃ e : Int, s.end_date = some e ∧ fiveYearsAgo now ≤ e := by
  rw [select_best_cvgs_eq] at hk
  rcases List.mem_flatMap.mp hk with ⟨c, hc, hk2⟩
  rcases List.mem_map.mp hk2 with ⟨s, hs, rfl⟩
  have hs2 : s ∈ commodityRanked (fiveYearsAgo now) df c :=
    List.mem_of_mem_take hs
  refine ⟨c, hc, s, hs2, rfl, ?_, ?_⟩
  · have hmem : s ∈ (cvg_stats (df.filter (fun r => decide (r.Commodity = c)))).filter
        (eligible (fiveYearsAgo now)) :=
      ((List.perm_insertionSort rankR _).mem_iff).mp hs2
    have helig : eligible (fiveYearsAgo now) s = true := (List.mem_filter.mp hmem).2
    unfold eligible at helig
    simp only [Bool.and_eq_true] at helig
    exact of_decide_eq_true helig.2
  · have hmem : s ∈ (cvg_stats (df.filter (fun r => decide (r.Commodity = c)))).filter
        (eligible (fiveYearsAgo now)) :=
      ((List.perm_insertionSort rankR _).mem_iff).mp hs2
    have helig : eligible (fiveYearsAgo now) s = true := (List.mem_filter.mp hmem).2
    unfold eligible at helig
    simp only [Bool.and_eq_true] at helig
    obtain ⟨h1, _⟩ := helig
    cases he : s.end_date with
    | none => rw [he] at h1; simp at h1
    | some e =>
      rw [he] at h1
      exact ⟨e, rfl, of_decide_eq_true h1⟩

set_option maxRecDepth 8000 in
/-- Concrete evaluation of select_best_cvgs on a block of 500 identical
rows with a recent parsed date and present Modal: the key is selected. -/
theorem select_block_eval :
    select_best_cvgs
      (List.replicate 500 (⟨['A'], ['K'], some ⟨1970, 1, 4⟩, some 1, none⟩ : CRow)) 3
      ⟨1970, 2, 1⟩ = [['K']] := by
  have hall : ∀ x ∈ List.replicate 500 (['A'] : Str), x = ['A'] :=
    fun x hx => List.eq_of_mem_replicate hx
  have hallK : ∀ x ∈ List.replicate 500 (['K'] : Str), x = ['K'] :=
    fun x hx => List.eq_of_mem_replicate hx
  rw [select_best_cvgs_eq, List.map_replicate,
    uniqueFirst_all_eq hall (by simp)]
  simp only [List.flatMap_cons, List.flatMap_nil, List.append_nil]
  unfold commodityRanked
  rw [filter_replicate_of_pos (by decide)]
  unfold cvg_stats sortedKeys cvgGroup
  rw [List.map_replicate, uniqueFirst_all_eq hallK (by simp)]
  show ((List.insertionSort rankR (([cvgStatsOf
      ((List.replicate 500 (⟨['A'], ['K'], some ⟨1970, 1, 4⟩, some 1, none⟩ : CRow)).filter
        (fun r => decide (r.CVG = ['K'])))
      ['K']]).filter (eligible (fiveYearsAgo ⟨1970, 2, 1⟩)))).take 3).map (fun s => s.CVG)
    = [['K']]
  rw [filter_replicate_of_pos (by decide)]
  have hgd : groupDays (List.replicate 500 (⟨['A'], ['K'], some ⟨1970, 1, 4⟩, some 1, none⟩ : CRow))
      = List.replicate 500 (toDays ⟨1970, 1, 4⟩) := filterMap_replicate_some rfl 500
  have hnn : (List.replicate 500 (⟨['A'], ['K'], some ⟨1970, 1, 4⟩, some 1, none⟩ : CRow)).filterMap
      (fun r => r.Modal) = List.replicate 500 (1 : ℚ) := filterMap_replicate_some rfl 500
  have helig : eligible (fiveYearsAgo ⟨1970, 2, 1⟩)
      (cvgStatsOf (List.replicate 500 (⟨['A'], ['K'], some ⟨1970, 1, 4⟩, some 1, none⟩ : CRow))
        ['K']) = true := by
    unfold eligible
    rw [cvgStatsOf_end_date, cvgStatsOf_non_null_count, hgd,
      optMax_replicate 499 (toDays ⟨1970, 1, 4⟩), hnn, List.length_replicate]
    decide
  rw [List.filter_singleton, helig]
  rfl

/-- Witness for C1 at the concrete 500-row block. -/
theorem rank_series_eligibility_witness :
    ∃ c ∈ uniqueFirst ((List.replicate 500
        (⟨['A'], ['K'], some ⟨1970, 1, 4⟩, some 1, none⟩ : CRow)).map (fun r => r.Commodity)),
      ∃ s ∈ commodityRanked (fiveYearsAgo ⟨1970, 2, 1⟩)
          (List.replicate 500 (⟨['A'], ['K'], some ⟨1970, 1, 4⟩, some 1, none⟩ : CRow)) c,
        s.CVG = ['K'] ∧ 500 ≤ s.non_null_count ∧
        ∃ e : Int, s.end_date = some e ∧ fiveYearsAgo ⟨1970, 2, 1⟩ ≤ e :=
  rank_series_eligibility _ 3 _ ['K'] (by rw [select_block_eval]; simp)

/-! ### C4: which rows feed which statistic -/

theorem length_filterMap_eq_countP {α β : Type} (f : α → Option β) (l : List α) :
    (l.filterMap f).length = l.countP (fun a => (f a).isSome) := by
  induction l with
  | nil => rfl
  | cons a t ih =>
    rw [List.filterMap_cons, List.countP_cons]
    cases hf : f a with
    | none => simpa [hf] using ih
    | some b => simpa [hf] using ih

theorem filterMap_filter_isSome {α β : Type} (f : α → Option β) (l : List α) :
    (l.filter (fun a => (f a).isSome)).filterMap f = l.filterMap f := by
  induction l with
  | nil => rfl
  | cons a t ih =>
    rw [List.filter_cons]
    cases hf : f a with
    | none =>
      rw [if_neg (by simp [hf]), List.filterMap_cons, hf, ih]
    | some b =>
      rw [if_pos (by simp [hf]), List.filterMap_cons, List.filterMap_cons, hf, ih]

theorem groupDays_filter_parsed (g : List CRow) :
    groupDays (g.filter (fun r => (parse_mixed_dates r.Date).isSome)) = groupDays g := by
  unfold groupDays
  rw [show g.filter (fun r => (parse_mixed_dates r.Date).isSome)
        = g.filter (fun r => ((fun x : CRow => x.Date.map toDays) r).isSome) from
      List.filter_congr (fun r _ => by cases hr : r.Date <;> simp [parse_mixed_dates, hr])]
  exact filterMap_filter_isSome _ g

/-- C4 (amended): date parsing happens before aggregation, and start_date,
end_date and total_row_count are computed only over rows whose Date parsed
under the two-format fallback; but non_missing_count counts every row
whose Modal is present, including rows whose Date became the unparseable
marker — such rows do contribute to the statistic that drives eligibility
and ranking. -/
theorem stats_parse_first_counts (g : List CRow) (k : Str) :
    (cvgStatsOf g k).total_count
        = g.countP (fun r => (parse_mixed_dates r.Date).isSome) ∧
    (cvgStatsOf g k).start_date
        = optMin (groupDays (g.filter (fun r => (parse_mixed_dates r.Date).isSome))) ∧
    (cvgStatsOf g k).end_date
        = optMax (groupDays (g.filter (fun r => (parse_mixed_dates r.Date).isSome))) ∧
    (cvgStatsOf g k).non_null_count = g.countP (fun r => r.Modal.isSome) := by
  refine ⟨?_, ?_, ?_, ?_⟩
  · rw [cvgStatsOf_total_count]
    unfold groupDays
    rw [length_filterMap_eq_countP]
    exact List.countP_congr (fun r _ => by cases hr : r.Date <;> simp [hr, parse_mixed_dates])
  · rw [cvgStatsOf_start_date, groupDays_filter_parsed]
  · rw [cvgStatsOf_end_date, groupDays_filter_parsed]
  · rw [cvgStatsOf_non_null_count, length_filterMap_eq_countP]

set_option maxRecDepth 8000 in
/-- C4 is refuted as stated: on a group of 500 rows whose dates are all
unparseable but whose Modal is present, plus one row with a recent parsed
date and missing Modal, the key is selected — non_null_count = 500 comes
entirely from unparseable-date rows (no row has both a parsed date and a
present Modal), so rows with the unparseable marker do feed eligibility
and ranking. -/
theorem ranking_counts_unparsed_rows :
    select_best_cvgs
        (List.replicate 500 (⟨['A'], ['K'], none, some 1, none⟩ : CRow)
          ++ [(⟨['A'], ['K'], some ⟨1970, 1, 4⟩, none, none⟩ : CRow)]) 3 ⟨1970, 2, 1⟩ = [['K']] ∧
    ((List.replicate 500 (⟨['A'], ['K'], none, some 1, none⟩ : CRow)
          ++ [(⟨['A'], ['K'], some ⟨1970, 1, 4⟩, none, none⟩ : CRow)]).filter
        (fun r => (parse_mixed_dates r.Date).isSome && r.Modal.isSome)).length = 0 := by
  constructor
  · have hallA : ∀ x ∈ List.replicate 500 (['A'] : Str) ++ ([['A']] : List Str), x = ['A'] := by
      intro x hx
      rcases List.mem_append.mp hx with h | h
      · exact List.eq_of_mem_replicate h
      · simpa using h
    have hallK : ∀ x ∈ List.replicate 500 (['K'] : Str) ++ ([['K']] : List Str), x = ['K'] := by
      intro x hx
      rcases List.mem_append.mp hx with h | h
      · exact List.eq_of_mem_replicate h
      · simpa using h
    have hmapA : (List.replicate 500 (⟨['A'], ['K'], none, some 1, none⟩ : CRow)
        ++ [(⟨['A'], ['K'], some ⟨1970, 1, 4⟩, none, none⟩ : CRow)]).map (fun r => r.Commodity)
        = List.replicate 500 (['A'] : Str) ++ ([['A']] : List Str) := by
      rw [List.map_append, List.map_replicate]
      rfl
    have hmapK : (List.replicate 500 (⟨['A'], ['K'], none, some 1, none⟩ : CRow)
        ++ [(⟨['A'], ['K'], some ⟨1970, 1, 4⟩, none, none⟩ : CRow)]).map (fun r => r.CVG)
        = List.replicate 500 (['K'] : Str) ++ ([['K']] : List Str) := by
      rw [List.map_append, List.map_replicate]
      rfl
    have hfilC : (List.replicate 500 (⟨['A'], ['K'], none, some 1, none⟩ : CRow)
        ++ [(⟨['A'], ['K'], some ⟨1970, 1, 4⟩, none, none⟩ : CRow)]).filter
          (fun r => decide (r.Commodity = ['A']))
        = List.replicate 500 (⟨['A'], ['K'], none, some 1, none⟩ : CRow)
          ++ [(⟨['A'], ['K'], some ⟨1970, 1, 4⟩, none, none⟩ : CRow)] := by
      rw [List.filter_append, filter_replicate_of_pos (by decide)]
      rfl
    have hfilK : (List.replicate 500 (⟨['A'], ['K'], none, some 1, none⟩ : CRow)
        ++ [(⟨['A'], ['K'], some ⟨1970, 1, 4⟩, none, none⟩ : CRow)]).filter
          (fun r => decide (r.CVG = ['K']))
        = List.replicate 500 (⟨['A'], ['K'], none, some 1, none⟩ : CRow)
          ++ [(⟨['A'], ['K'], some ⟨1970, 1, 4⟩, none, none⟩ : CRow)] := by
      rw [List.filter_append, filter_replicate_of_pos (by decide)]
      rfl
    have hgd : groupDays (List.replicate 500 (⟨['A'], ['K'], none, some 1, none⟩ : CRow)
        ++ [(⟨['A'], ['K'], some ⟨1970, 1, 4⟩, none, none⟩ : CRow)]) = [toDays ⟨1970, 1, 4⟩] := by
      unfold groupDays
      rw [List.filterMap_append, filterMap_replicate_none rfl 500]
      rfl
    have hnn : ((List.replicate 500 (⟨['A'], ['K'], none, some 1, none⟩ : CRow)
        ++ [(⟨['A'], ['K'], some ⟨1970, 1, 4⟩, none, none⟩ : CRow)]).filterMap
          (fun r => r.Modal)).length = 500 := by
      rw [List.filterMap_append,
        filterMap_replicate_some (f := fun r : CRow => r.Modal) (b := (1 : ℚ)) rfl 500]
      simp
    have helig : eligible (fiveYearsAgo ⟨1970, 2, 1⟩)
        (cvgStatsOf (List.replicate 500 (⟨['A'], ['K'], none, some 1, none⟩ : CRow)
          ++ [(⟨['A'], ['K'], some ⟨1970, 1, 4⟩, none, none⟩ : CRow)]) ['K']) = true := by
      unfold eligible
      rw [cvgStatsOf_end_date, cvgStatsOf_non_null_count, hgd, hnn]
      decide
    rw [select_best_cvgs_eq, hmapA, uniqueFirst_all_eq hallA (by simp)]
    simp only [List.flatMap_cons, List.flatMap_nil, List.append_nil]
    unfold commodityRanked
    rw [hfilC]
    unfold cvg_stats sortedKeys cvgGroup
    rw [hmapK, uniqueFirst_all_eq hallK (by simp)]
    rw [show List.insertionSort strLeR [(['K'] : Str)] = [['K']] from rfl]
    simp only [List.map_cons, List.map_nil]
    rw [hfilK, List.filter_singleton, helig]
    rfl
  · rw [List.filter_append, filter_replicate_of_neg rfl]
    rfl

/-! ### C6: the return shape of the ranker -/

/-- Modelled from the spec: the section 4.2 contract words the return value
as a mapping from Commodity to an ordered list of up to top_n Series Keys.
This is that mapping — one entry per commodity in input first-appearance
order, an empty list for a commodity with zero eligible series — built
from the same per-commodity ranking the source computes. -/
def rank_series_map (df : List CRow) (n : Nat) (now : Date) : List (Str × List Str) :=
  (uniqueFirst (df.map (fun r => r.Commodity))).map
    (fun c => (c, ((commodityRanked (fiveYearsAgo now) df c).take n).map (fun s => s.CVG)))

/-- Example data: two series of one commodity with identical statistics
(a rank tie), the lexicographically later key appearing first in the
input. -/
def tieRowA : CRow := ⟨['C'], ['A'], some ⟨1970, 1, 4⟩, some 1, none⟩

/-- Second tied example row; see tieRowA. -/
def tieRowB : CRow := ⟨['C'], ['B'], some ⟨1970, 1, 4⟩, some 1, none⟩

/-- Example dataset with two tied 500-row series, key B's rows first. -/
def tieDf : List CRow := List.replicate 500 tieRowB ++ List.replicate 500 tieRowA

/-- C6 (amended): select_best_cvgs returns a flat list, the concatenation
over commodities in input first-appearance order of each commodity's up to
top_n eligible keys, and never an error; a commodity with zero eligible
series contributes an empty segment, but no explicit empty list appears in
the returned value. -/
theorem rank_series_flattens_spec_map (df : List CRow) (n : Nat) (now : Date) :
    select_best_cvgs df n now = (rank_series_map df n now).flatMap (fun p => p.2) ∧
    (rank_series_map df n now).map (fun p => p.1)
      = uniqueFirst (df.map (fun r => r.Commodity)) ∧
    List.Forall (fun p : Str × List Str => p.2.length ≤ n) (rank_series_map df n now) := by
  refine ⟨?_, ?_, ?_⟩
  · rw [select_best_cvgs_eq]
    unfold rank_series_map
    rw [List.flatMap_map]
  · unfold rank_series_map
    rw [List.map_map]
    exact List.map_id' _
  · unfold rank_series_map
    rw [List.forall_iff_forall_mem]
    intro p hp
    rcases List.mem_map.mp hp with ⟨c, _, rfl⟩
    simp only [List.length_map]
    exact List.length_take_le ..

theorem insertionSort_pair {a b : CvgStats} (h : rankR a b) :
    List.insertionSort rankR [a, b] = [a, b] := by
  show List.orderedInsert rankR a (List.orderedInsert rankR b []) = [a, b]
  rw [show List.orderedInsert rankR b [] = [b] from rfl, List.orderedInsert, if_pos h]

set_option maxRecDepth 8000 in
/-- Evaluation of select_best_cvgs on the tied dataset: one commodity, two
eligible tied series, and the output is the flat two-element key list in
groupby key order, not a one-entry per-commodity mapping. -/
theorem select_two_ties_eval :
    select_best_cvgs tieDf 3 ⟨1970, 2, 1⟩ = [['A'], ['B']] := by
  have hstats : ∀ g : List CRow, groupDays g = List.replicate 500 (toDays ⟨1970, 1, 4⟩) →
      g.filterMap (fun r => r.Modal) = List.replicate 500 (1 : ℚ) → ∀ k : Str,
      cvgStatsOf g k = ⟨k, some (toDays ⟨1970, 1, 4⟩), some (toDays ⟨1970, 1, 4⟩), 500, 500,
        some 0, some 0, some ⊤⟩ := by
    intro g hg hm k
    unfold cvgStatsOf
    rw [hg, hm, optMin_replicate 499, optMax_replicate 499]
    simp only [List.length_replicate, CvgStats.mk.injEq]
    norm_num
  have hallC : ∀ x ∈ List.replicate 500 (['C'] : Str) ++ List.replicate 500 (['C'] : Str),
      x = ['C'] := by
    intro x hx
    rcases List.mem_append.mp hx with h | h <;> exact List.eq_of_mem_replicate h
  have hmapC : tieDf.map (fun r => r.Commodity)
      = List.replicate 500 (['C'] : Str) ++ List.replicate 500 (['C'] : Str) := by
    unfold tieDf
    rw [List.map_append, List.map_replicate, List.map_replicate]
    rfl
  have hmapK : tieDf.map (fun r => r.CVG)
      = List.replicate 500 (['B'] : Str) ++ List.replicate 500 (['A'] : Str) := by
    unfold tieDf
    rw [List.map_append, List.map_replicate, List.map_replicate]
    rfl
  have hfilC : tieDf.filter (fun r => decide (r.Commodity = ['C'])) = tieDf := by
    unfold tieDf
    rw [List.filter_append, filter_replicate_of_pos (by decide),
      filter_replicate_of_pos (by decide)]
  have h2b : uniqueFirst (List.replicate 500 (['B'] : Str) ++ List.replicate 500 (['A'] : Str))
      = [['B'], ['A']] := uniqueFirst_two_blocks (by decide) 499 499
  have hgA : tieDf.filter (fun r => decide (r.CVG = ['A'])) = List.replicate 500 tieRowA := by
    unfold tieDf
    rw [List.filter_append, filter_replicate_of_neg (by decide),
      filter_replicate_of_pos (by decide)]
    rfl
  have hgB : tieDf.filter (fun r => decide (r.CVG = ['B'])) = List.replicate 500 tieRowB := by
    unfold tieDf
    rw [List.filter_append, filter_replicate_of_pos (by decide),
      filter_replicate_of_neg (by decide), List.append_nil]
  have hsA : cvgStatsOf (List.replicate 500 tieRowA) ['A']
      = ⟨['A'], some (toDays ⟨1970, 1, 4⟩), some (toDays ⟨1970, 1, 4⟩), 500, 500,
        some 0, some 0, some ⊤⟩ :=
    hstats (List.replicate 500 tieRowA)
      (by unfold groupDays; exact filterMap_replicate_some rfl 500)
      (filterMap_replicate_some rfl 500) ['A']
  have hsB : cvgStatsOf (List.replicate 500 tieRowB) ['B']
      = ⟨['B'], some (toDays ⟨1970, 1, 4⟩), some (toDays ⟨1970, 1, 4⟩), 500, 500,
        some 0, some 0, some ⊤⟩ :=
    hstats (List.replicate 500 tieRowB)
      (by unfold groupDays; exact filterMap_replicate_some rfl 500)
      (filterMap_replicate_some rfl 500) ['B']
  have heligA : eligible (fiveYearsAgo ⟨1970, 2, 1⟩)
      (⟨['A'], some (toDays ⟨1970, 1, 4⟩), some (toDays ⟨1970, 1, 4⟩), 500, 500,
        some 0, some 0, some ⊤⟩ : CvgStats) = true := by decide
  have heligB : eligible (fiveYearsAgo ⟨1970, 2, 1⟩)
      (⟨['B'], some (toDays ⟨1970, 1, 4⟩), some (toDays ⟨1970, 1, 4⟩), 500, 500,
        some 0, some 0, some ⊤⟩ : CvgStats) = true := by decide
  have hrank : rankR
      (⟨['A'], some (toDays ⟨1970, 1, 4⟩), some (toDays ⟨1970, 1, 4⟩), 500, 500,
        some 0, some 0, some ⊤⟩ : CvgStats)
      (⟨['B'], some (toDays ⟨1970, 1, 4⟩), some (toDays ⟨1970, 1, 4⟩), 500, 500,
        some 0, some 0, some ⊤⟩ : CvgStats) := Or.inr ⟨rfl, le_refl _⟩
  rw [select_best_cvgs_eq, hmapC, uniqueFirst_all_eq hallC (by simp)]
  simp only [List.flatMap_cons, List.flatMap_nil, List.append_nil]
  unfold commodityRanked
  rw [hfilC]
  unfold cvg_stats sortedKeys cvgGroup
  rw [hmapK, h2b]
  rw [show List.insertionSort strLeR [(['B'] : Str), ['A']] = [['A'], ['B']] from rfl]
  simp only [List.map_cons, List.map_nil]
  rw [hgA, hgB, hsA, hsB]
  rw [show (([⟨['A'], some (toDays ⟨1970, 1, 4⟩), some (toDays ⟨1970, 1, 4⟩), 500, 500,
        some 0, some 0, some ⊤⟩,
      ⟨['B'], some (toDays ⟨1970, 1, 4⟩), some (toDays ⟨1970, 1, 4⟩), 500, 500,
        some 0, some 0, some ⊤⟩] : List CvgStats).filter
          (eligible (fiveYearsAgo ⟨1970, 2, 1⟩)))
      = [⟨['A'], some (toDays ⟨1970, 1, 4⟩), some (toDays ⟨1970, 1, 4⟩), 500, 500,
        some 0, some 0, some ⊤⟩,
      ⟨['B'], some (toDays ⟨1970, 1, 4⟩), some (toDays ⟨1970, 1, 4⟩), 500, 500,
        some 0, some 0, some ⊤⟩] from by
    rw [List.filter_cons_of_pos heligA, List.filter_cons_of_pos heligB, List.filter_nil]]
  rw [insertionSort_pair hrank]
  rfl

set_option maxRecDepth 8000 in
/-- C6 is refuted as stated: the value select_best_cvgs returns is a flat
list of keys, not a mapping from Commodity.  An input whose one commodity
has two eligible series yields a two-entry list of bare keys (more entries
than commodities); an input whose one commodity has zero eligible series
yields the empty list, with no observable "commodity maps to empty list"
entry, while the spec-modelled mapping has exactly one entry for it. -/
theorem rank_series_output_not_a_mapping :
    select_best_cvgs [(⟨['B'], ['Z'], some ⟨1970, 1, 4⟩, some 1, none⟩ : CRow)] 3 ⟨1970, 2, 1⟩
        = [] ∧
    rank_series_map [(⟨['B'], ['Z'], some ⟨1970, 1, 4⟩, some 1, none⟩ : CRow)] 3 ⟨1970, 2, 1⟩
        = [(['B'], [])] ∧
    select_best_cvgs tieDf 3 ⟨1970, 2, 1⟩ = [['A'], ['B']] ∧
    uniqueFirst (tieDf.map (fun r => r.Commodity)) = [['C']] := by
  refine ⟨by decide, by decide, select_two_ties_eval, ?_⟩
  have hallC : ∀ x ∈ List.replicate 500 (['C'] : Str) ++ List.replicate 500 (['C'] : Str),
      x = ['C'] := by
    intro x hx
    rcases List.mem_append.mp hx with h | h <;> exact List.eq_of_mem_replicate h
  have hmapC : tieDf.map (fun r => r.Commodity)
      = List.replicate 500 (['C'] : Str) ++ List.replicate 500 (['C'] : Str) := by
    unfold tieDf
    rw [List.map_append, List.map_replicate, List.map_replicate]
    rfl
  rw [hmapC, uniqueFirst_all_eq hallC (by simp)]

/-! ### C3: sortedness, tie stability and shuffle invariance -/

theorem pair_sublist_of_mem {α : Type} {l : List α} {a b : α} (hne : a ≠ b)
    (ha : a ∈ l) (hb : b ∈ l) :
    List.Sublist [a, b] l ∨ List.Sublist [b, a] l := by
  induction l with
  | nil => simp at ha
  | cons x t ih =>
    rcases List.mem_cons.mp ha with rfl | ha2
    · have hbt : b ∈ t := by
        rcases List.mem_cons.mp hb with h | h
        · exact absurd h.symm hne
        · exact h
      exact Or.inl (List.Sublist.cons₂ _ (List.singleton_sublist.mpr hbt))
    · rcases List.mem_cons.mp hb with rfl | hb2
      · exact Or.inr (List.Sublist.cons₂ _ (List.singleton_sublist.mpr ha2))
      · rcases ih ha2 hb2 with h | h
        · exact Or.inl (h.cons _)
        · exact Or.inr (h.cons _)

theorem not_pair_sublist_both {α : Type} {l : List α} (hl : l.Nodup) {a b : α} (hne : a ≠ b)
    (h1 : List.Sublist [a, b] l) (h2 : List.Sublist [b, a] l) : False := by
  induction l with
  | nil => simp at h1
  | cons x t ih =>
    rw [List.nodup_cons] at hl
    cases h1 with
    | cons _ h1' =>
      cases h2 with
      | cons _ h2' => exact ih hl.2 h1' h2'
      | cons₂ _ h2' =>
        exact hl.1 (h1'.subset (by simp))
    | cons₂ _ h1' =>
      cases h2 with
      | cons _ h2' => exact hl.1 (h2'.subset (by simp))
      | cons₂ _ h2' => exact hne rfl

theorem cvgStatsOf_perm {g g' : List CRow} (h : g.Perm g') (k : Str) :
    cvgStatsOf g k = cvgStatsOf g' k := by
  have hd : (groupDays g).Perm (groupDays g') := h.filterMap _
  have h1 : optMin (groupDays g) = optMin (groupDays g') := optMin_perm hd
  have h2 : optMax (groupDays g) = optMax (groupDays g') := optMax_perm hd
  have h3 : (groupDays g).length = (groupDays g').length := hd.length_eq
  have h4 : (g.filterMap (fun r => r.Modal)).length
      = (g'.filterMap (fun r => r.Modal)).length := (h.filterMap _).length_eq
  unfold cvgStatsOf
  rw [h1, h2, h3, h4]

theorem sortedKeys_perm {cdf cdf' : List CRow} (h : cdf.Perm cdf') :
    sortedKeys cdf = sortedKeys cdf' := by
  have hperm : (uniqueFirst (cdf.map (fun r => r.CVG))).Perm
      (uniqueFirst (cdf'.map (fun r => r.CVG))) := by
    rw [List.perm_ext_iff_of_nodup (uniqueFirst_nodup _) (uniqueFirst_nodup _)]
    intro x
    rw [uniqueFirst_mem, uniqueFirst_mem]
    exact (h.map _).mem_iff
  exact List.eq_of_perm_of_sorted
    ((List.perm_insertionSort strLeR _).trans
      (hperm.trans (List.perm_insertionSort strLeR _).symm))
    (List.sorted_insertionSort strLeR _) (List.sorted_insertionSort strLeR _)

theorem cvg_stats_perm {cdf cdf' : List CRow} (h : cdf.Perm cdf') :
    cvg_stats cdf = cvg_stats cdf' := by
  unfold cvg_stats
  rw [sortedKeys_perm h]
  exact List.map_congr_left (fun k _ => cvgStatsOf_perm (h.filter _) k)

theorem cvg_stats_nodup (cdf : List CRow) : (cvg_stats cdf).Nodup := by
  unfold cvg_stats
  refine List.Nodup.map_on ?_ ?_
  · intro x _ y _ hxy
    have : (cvgStatsOf (cvgGroup cdf x) x).CVG = (cvgStatsOf (cvgGroup cdf y) y).CVG := by
      rw [hxy]
    simpa [cvgStatsOf_CVG] using this
  · unfold sortedKeys
    exact ((List.perm_insertionSort strLeR _).nodup_iff).mpr (uniqueFirst_nodup _)

/-- C3: for every commodity, the ranked eligible list is sorted by the
descending lexicographic rank order (non_null_count first,
records_per_year second); the sort is stable: two tied rows appear in the
ranked list exactly in the order the aggregated stats table (groupby key
order) lists them; and the per-commodity ranked list is invariant under
any permutation of the input rows. -/
theorem rank_series_sorted_stable (df : List CRow) (now : Date) (c : Str) :
    List.Sorted rankR (commodityRanked (fiveYearsAgo now) df c) ∧
    (∀ a b : CvgStats, a ≠ b → rankR a b → rankR b a →
      (List.Sublist [a, b] (commodityRanked (fiveYearsAgo now) df c) ↔
        List.Sublist [a, b]
          ((cvg_stats (df.filter (fun r => decide (r.Commodity = c)))).filter
            (eligible (fiveYearsAgo now))))) ∧
    (∀ df' : List CRow, df.Perm df' →
      commodityRanked (fiveYearsAgo now) df c = commodityRanked (fiveYearsAgo now) df' c) := by
  refine ⟨List.sorted_insertionSort rankR _, ?_, ?_⟩
  · intro a b hne hab hba
    have hnd : ((cvg_stats (df.filter (fun r => decide (r.Commodity = c)))).filter
        (eligible (fiveYearsAgo now))).Nodup :=
      (cvg_stats_nodup _).filter _
    constructor
    · intro h
      have ha : a ∈ (cvg_stats (df.filter (fun r => decide (r.Commodity = c)))).filter
          (eligible (fiveYearsAgo now)) :=
        (List.perm_insertionSort rankR _).mem_iff.mp (h.subset (by simp))
      have hb : b ∈ (cvg_stats (df.filter (fun r => decide (r.Commodity = c)))).filter
          (eligible (fiveYearsAgo now)) :=
        (List.perm_insertionSort rankR _).mem_iff.mp (h.subset (by simp))
      rcases pair_sublist_of_mem hne ha hb with hgood | hbad
      · exact hgood
      · exfalso
        have hsort : List.Sublist [b, a] (commodityRanked (fiveYearsAgo now) df c) :=
          List.pair_sublist_insertionSort hba hbad
        have hndr : (commodityRanked (fiveYearsAgo now) df c).Nodup :=
          ((List.perm_insertionSort rankR _).nodup_iff).mpr hnd
        exact not_pair_sublist_both hndr hne h hsort
    · intro h
      exact List.pair_sublist_insertionSort hab h
  · intro df' hp
    unfold commodityRanked
    rw [cvg_stats_perm (hp.filter _)]

/-- Witness for C3's invariance at the tied dataset and its block swap. -/
theorem rank_series_sorted_stable_witness :
    commodityRanked (fiveYearsAgo ⟨1970, 2, 1⟩) tieDf ['C']
      = commodityRanked (fiveYearsAgo ⟨1970, 2, 1⟩)
          (List.replicate 500 tieRowA ++ List.replicate 500 tieRowB) ['C'] :=
  (rank_series_sorted_stable tieDf ⟨1970, 2, 1⟩ ['C']).2.2
    (List.replicate 500 tieRowA ++ List.replicate 500 tieRowB)
    (by unfold tieDf; exact List.perm_append_comm)
